import Mathlib

/-
Verification of the shared-memory writer/reader handoff program
`src/shared_sync.c` (one parent, two forked children, one POSIX
shared-memory slot guarded by a polled `ready` flag).

The slot, the two child loops and the parent control flow are embedded
shallowly below.  The writer and reader loop bodies are translated from
`main` (lines 105-123 and 143-157); the two busy-wait guards and the two
flag assignments inside those loops are marked TODO in the source and are
filled in here following the specification (sections 4.2, 4.3 and 5),
which describes the intended completed protocol.  Everything else —
initial slot contents, message ids, the snprintf payload, the loop
bounds, the error-handling ladder, the parent program order and the
record layout — is taken directly from the C file.

Machine integers: `message_id` and `ready` are C ints; every value they
take in this program is tiny (0..105), far from any overflow, so they are
modelled as `Int`.  The 256-byte `text_message` buffer is modelled as a
`List Nat` of its byte values; `cstrWrite` is the effect of
`snprintf(buf, cap, ...)` on such a buffer and `cstrRead` is the C-string
read (`%s`): the bytes before the first NUL.
-/

set_option maxRecDepth 10000

/-- Size in bytes of the shared-memory region, from the C macro
`SHM_SIZE` (line 22). -/
def SHM_SIZE : Nat := 1024

/-- Capacity in bytes of the text buffer, from the C macro `MAX_MSG_LEN`
(line 23). -/
def MAX_MSG_LEN : Nat := 256

/-- Byte values of an ASCII string, used to model C character buffers. -/
def strBytes (s : String) : List Nat := s.data.map Char.toNat

/-- Text produced by the writer for iteration `i`: the snprintf format
string of lines 113-114 with `%d` instantiated. -/
def msgStr (i : Nat) : String :=
  "Message from Child 1 (writer), iteration " ++ Nat.repr i

/-- Bytes of the writer message for iteration `i` (not counting the NUL
terminator that snprintf appends). -/
def msgBytes (i : Nat) : List Nat := strBytes (msgStr i)

/-- Effect of `snprintf(buf, cap, ...)` producing byte string `s` into a
buffer `buf`: at most `cap - 1` payload bytes are kept, a terminating 0
follows, and bytes after the terminator keep their previous values. -/
def cstrWrite (cap : Nat) (s : List Nat) (buf : List Nat) : List Nat :=
  let w := s.take (cap - 1)
  w ++ 0 :: buf.drop (w.length + 1)

/-- C-string read of a byte buffer (what `printf("%s", buf)` consumes):
the bytes before the first NUL. -/
def cstrRead (buf : List Nat) : List Nat := buf.takeWhile (fun b => b != 0)

/-- The shared record, from the C struct `SharedMessage` (lines 26-30):
a message id, a fixed 256-byte text buffer, and the synchronization flag
`ready` (0 = writer may write, 1 = reader may read). -/
structure SharedMessage where
  message_id : Int
  text_message : List Nat
  ready : Int
deriving DecidableEq

/-- Program counter of the writer child (one loop iteration of lines
105-123): spin on the flag, store the id, store the text, set the flag;
`wdone` is the state after the loop exits. -/
inductive WriterPc where
  | waitEmpty | writeId | writeText | setFull | wdone
deriving DecidableEq

/-- Program counter of the reader child (one loop iteration of lines
143-157): spin on the flag, read id and text, clear the flag; `rdone` is
the state after the loop exits. -/
inductive ReaderPc where
  | waitFull | readMsg | setEmpty | rdone
deriving DecidableEq

/-- Observable events of a run: the writer finishing the payload of
message `k` (its WROTE print, lines 116-117) and the reader consuming
message `k` (its READ print, lines 149-150), each carrying the id and
the text as seen in the slot at that moment. -/
inductive Event where
  | wrote (k : Nat) (id : Int) (text : List Nat)
  | read (k : Nat) (id : Int) (text : List Nat)
deriving DecidableEq

/-- Global state of a run: the shared slot, both children's program
counters and loop indices, the list of (id, text) pairs the reader has
consumed so far, and the event trace. -/
structure Config where
  slot : SharedMessage
  wpc : WriterPc
  wi : Nat
  rpc : ReaderPc
  ri : Nat
  log : List (Int × List Nat)
  events : List Event
deriving DecidableEq

/-- Modelled from the spec: one atomic step of the writer child.  The
assignments (`message_id = 100 + i`, the snprintf of lines 112-114, and
the loop bound `i <= 5`) are translated from lines 105-123 of the
source; the busy-wait until `ready == 0` and the `ready = 1` store are
the two TODO bodies of lines 106-110 and 119-120, missing from the
source and filled in from spec sections 4.2 and 5 (spin with no sleep
until the flag is Empty; publish payload first, then flip the flag). -/
def wstep (c : Config) : Config :=
  match c.wpc with
  | .waitEmpty => if c.slot.ready = 0 then { c with wpc := .writeId } else c
  | .writeId =>
      { c with slot := { c.slot with message_id := 100 + (c.wi : Int) },
               wpc := .writeText }
  | .writeText =>
      let slot := { c.slot with
        text_message := cstrWrite MAX_MSG_LEN (msgBytes c.wi) c.slot.text_message }
      { c with slot := slot, wpc := .setFull,
               events := c.events ++
                 [Event.wrote c.wi slot.message_id (cstrRead slot.text_message)] }
  | .setFull =>
      let c := { c with slot := { c.slot with ready := 1 } }
      if c.wi < 5 then { c with wi := c.wi + 1, wpc := .waitEmpty }
      else { c with wpc := .wdone }
  | .wdone => c

/-- Modelled from the spec: one atomic step of the reader child.  The
read of `message_id`/`text_message` (lines 149-150) and the loop bound
are translated from lines 143-157 of the source; the busy-wait until
`ready == 1` and the `ready = 0` store are the two TODO bodies of lines
144-146 and 152-154, missing from the source and filled in from spec
sections 4.3 and 5 (spin until the flag is Full; consume, then release
the flag). -/
def rstep (c : Config) : Config :=
  match c.rpc with
  | .waitFull => if c.slot.ready = 1 then { c with rpc := .readMsg } else c
  | .readMsg =>
      let obs : Int × List Nat := (c.slot.message_id, cstrRead c.slot.text_message)
      { c with log := c.log ++ [obs],
               events := c.events ++ [Event.read c.ri obs.1 obs.2],
               rpc := .setEmpty }
  | .setEmpty =>
      let c := { c with slot := { c.slot with ready := 0 } }
      if c.ri < 5 then { c with ri := c.ri + 1, rpc := .waitFull }
      else { c with rpc := .rdone }
  | .rdone => c

/-- Interleaving step: the scheduler picks the writer (`true`) or the
reader (`false`); the two children are the only actors that touch the
slot after the parent forks them. -/
def step (c : Config) (p : Bool) : Config := if p then wstep c else rstep c

/-- Run a whole schedule (an arbitrary finite interleaving of the two
children) from a configuration. -/
def exec (c : Config) : List Bool → Config
  | [] => c
  | p :: rest => exec (step c p) rest

/-- State handed to the children by the parent: the slot exactly as
lines 85-87 initialize it (`message_id = 0`, `ready = 0`, buffer
memset to zero), both children at the top of their loops with `i = 1`,
nothing read yet. -/
def initConfig : Config :=
  { slot := { message_id := 0, text_message := List.replicate MAX_MSG_LEN 0,
              ready := 0 },
    wpc := .waitEmpty, wi := 1, rpc := .waitFull, ri := 1, log := [], events := [] }

/-- One concrete fair schedule: per handoff cycle, the writer's four
steps then the reader's three, five times over. -/
def fullSched : List Bool :=
  (List.replicate 5 [true, true, true, true, false, false, false]).flatten

/-- Observations the reader accumulates after `n` complete handoffs:
message `j` carries id `100 + j` and the writer's text for iteration
`j`. -/
def obsList : Nat → List (Int × List Nat)
  | 0 => []
  | j+1 => obsList j ++ [(100 + ((j : Int) + 1), msgBytes (j+1))]

/-- The strictly alternating event trace of `n` complete handoffs:
wrote 1, read 1, wrote 2, read 2, ... -/
def altTrace : Nat → List Event
  | 0 => []
  | j+1 => altTrace j ++ [Event.wrote (j+1) (100 + ((j : Int) + 1)) (msgBytes (j+1)),
                          Event.read (j+1) (100 + ((j : Int) + 1)) (msgBytes (j+1))]

/-- Buffer `b` holds message `k`: full 256-byte capacity, and its first
bytes are the message followed by a NUL terminator (bytes after the
terminator are unconstrained leftovers). -/
def hasMsg (k : Nat) (b : List Nat) : Prop :=
  b.length = MAX_MSG_LEN ∧ b.take ((msgBytes k).length + 1) = msgBytes k ++ [0]

/-- Buffer contents after `j` published messages: still all zeroes when
`j = 0`, else holding message `j`. -/
def bufOk (j : Nat) (b : List Nat) : Prop :=
  if j = 0 then b = List.replicate MAX_MSG_LEN 0 else hasMsg j b

/-- Value of `message_id` after `j` published messages: 0 initially,
else `100 + j`. -/
def idOk (j : Nat) (id : Int) : Prop :=
  if j = 0 then id = 0 else id = 100 + (j : Int)

/-- Protocol phase: both children idle at the top of cycle `k`, flag
Empty, `k - 1` messages fully handed off. -/
def PhIdle (k : Nat) (c : Config) : Prop :=
  c.wpc = .waitEmpty ∧ c.wi = k ∧ c.rpc = .waitFull ∧ c.ri = k ∧ c.slot.ready = 0 ∧
  idOk (k-1) c.slot.message_id ∧ bufOk (k-1) c.slot.text_message ∧
  c.log = obsList (k-1) ∧ c.events = altTrace (k-1)

/-- Protocol phase: writer has passed its guard and is about to store
the id of message `k`. -/
def PhWriteId (k : Nat) (c : Config) : Prop :=
  c.wpc = .writeId ∧ c.wi = k ∧ c.rpc = .waitFull ∧ c.ri = k ∧ c.slot.ready = 0 ∧
  idOk (k-1) c.slot.message_id ∧ bufOk (k-1) c.slot.text_message ∧
  c.log = obsList (k-1) ∧ c.events = altTrace (k-1)

/-- Protocol phase: id of message `k` stored, text not yet. -/
def PhWriteText (k : Nat) (c : Config) : Prop :=
  c.wpc = .writeText ∧ c.wi = k ∧ c.rpc = .waitFull ∧ c.ri = k ∧ c.slot.ready = 0 ∧
  c.slot.message_id = 100 + (k : Int) ∧ bufOk (k-1) c.slot.text_message ∧
  c.log = obsList (k-1) ∧ c.events = altTrace (k-1)

/-- Protocol phase: payload of message `k` fully in the slot, flag still
Empty, writer about to flip it. -/
def PhSetFull (k : Nat) (c : Config) : Prop :=
  c.wpc = .setFull ∧ c.wi = k ∧ c.rpc = .waitFull ∧ c.ri = k ∧ c.slot.ready = 0 ∧
  c.slot.message_id = 100 + (k : Int) ∧ hasMsg k c.slot.text_message ∧
  c.log = obsList (k-1) ∧
  c.events = altTrace (k-1) ++ [Event.wrote k (100 + (k : Int)) (msgBytes k)]

/-- Writer component after it has published message `k`: spinning at the
top of cycle `k + 1`, or finished when `k` was the last message. -/
def wAfter (k : Nat) (c : Config) : Prop :=
  if k < 5 then c.wpc = .waitEmpty ∧ c.wi = k + 1 else c.wpc = .wdone ∧ c.wi = 5

/-- Protocol phase: message `k` published (flag Full), reader has not
yet noticed. -/
def PhFull (k : Nat) (c : Config) : Prop :=
  wAfter k c ∧ c.rpc = .waitFull ∧ c.ri = k ∧ c.slot.ready = 1 ∧
  c.slot.message_id = 100 + (k : Int) ∧ hasMsg k c.slot.text_message ∧
  c.log = obsList (k-1) ∧
  c.events = altTrace (k-1) ++ [Event.wrote k (100 + (k : Int)) (msgBytes k)]

/-- Protocol phase: reader has passed its guard and is about to consume
message `k`. -/
def PhRead (k : Nat) (c : Config) : Prop :=
  wAfter k c ∧ c.rpc = .readMsg ∧ c.ri = k ∧ c.slot.ready = 1 ∧
  c.slot.message_id = 100 + (k : Int) ∧ hasMsg k c.slot.text_message ∧
  c.log = obsList (k-1) ∧
  c.events = altTrace (k-1) ++ [Event.wrote k (100 + (k : Int)) (msgBytes k)]

/-- Protocol phase: reader has consumed message `k` and is about to
release the slot. -/
def PhRelease (k : Nat) (c : Config) : Prop :=
  wAfter k c ∧ c.rpc = .setEmpty ∧ c.ri = k ∧ c.slot.ready = 1 ∧
  c.slot.message_id = 100 + (k : Int) ∧ hasMsg k c.slot.text_message ∧
  c.log = obsList k ∧ c.events = altTrace k

/-- Protocol phase: both children finished, all five messages handed
off. -/
def PhDone (c : Config) : Prop :=
  c.wpc = .wdone ∧ c.wi = 5 ∧ c.rpc = .rdone ∧ c.ri = 5 ∧ c.slot.ready = 0 ∧
  c.slot.message_id = 105 ∧ hasMsg 5 c.slot.text_message ∧
  c.log = obsList 5 ∧ c.events = altTrace 5

/-- The protocol invariant: every reachable configuration is in one of
the seven in-cycle phases for some message index `k` in 1..5, or in the
final phase. -/
def ProtoInv (c : Config) : Prop :=
  (∃ k, 1 ≤ k ∧ k ≤ 5 ∧
    (PhIdle k c ∨ PhWriteId k c ∨ PhWriteText k c ∨ PhSetFull k c ∨
     PhFull k c ∨ PhRead k c ∨ PhRelease k c)) ∨ PhDone c

/-- Both children have exited their loops (their `waitpid` in the parent
would return). -/
def terminal (c : Config) : Prop := c.wpc = .wdone ∧ c.rpc = .rdone

instance (c : Config) : Decidable (terminal c) :=
  inferInstanceAs (Decidable (c.wpc = .wdone ∧ c.rpc = .rdone))

/-- Initial-segment order on lists: `l₁` is `l₂` up to some point. -/
def isInitSeg {α : Type} (l₁ l₂ : List α) : Prop := ∃ t, l₁ ++ t = l₂

/-- Number of writer publish events in a trace. -/
def wroteCount (l : List Event) : Nat :=
  l.countP (fun e => match e with | Event.wrote _ _ _ => true | _ => false)

/-- Number of reader consume events in a trace. -/
def readCount (l : List Event) : Nat :=
  l.countP (fun e => match e with | Event.read _ _ _ => true | _ => false)

/-- Observable operations of the parent (`main` outside the child
branches), in the order they can matter for the slot lifecycle. -/
inductive ParentOp where
  | shmOpenOp | ftruncateOp | mmapOp | initSlotOp | forkWriterOp | forkReaderOp
  | waitWriterOp | waitReaderOp | munmapOp | closeFdOp | shmUnlinkOp
deriving DecidableEq

/-- Program order of the parent's operations as written in `main`:
create (line 47), size (line 60), map (line 78), initialize the slot
(lines 85-87), fork the writer (line 94), fork the reader (line 132),
wait for each child (lines 176, 179), then unmap, close and unlink
(lines 183-191). -/
def parentProgram : List ParentOp :=
  [.shmOpenOp, .ftruncateOp, .mmapOp, .initSlotOp, .forkWriterOp, .forkReaderOp,
   .waitWriterOp, .waitReaderOp, .munmapOp, .closeFdOp, .shmUnlinkOp]

/-- The setup call whose failure `perror` names. -/
inductive FailedCall where
  | shm_open_call | ftruncate_call | mmap_call | fork_call
deriving DecidableEq

/-- Outcome of `main`'s setup ladder: success, or a diagnostic naming
the failed call together with the exit code passed to `exit`. -/
inductive MainResult where
  | ok
  | fatal (which : FailedCall) (code : Nat)
deriving DecidableEq

/-- Setup ladder of `main` (lines 47-99 and 132-137): each call either
succeeds or makes the program `perror` the call name and `exit(1)`;
when everything succeeds `main` reaches its final `return 0`
(line 195). -/
def mainSetup (shmOk ftrOk mapOk fork1Ok fork2Ok : Bool) : MainResult :=
  if !shmOk then .fatal .shm_open_call 1
  else if !ftrOk then .fatal .ftruncate_call 1
  else if !mapOk then .fatal .mmap_call 1
  else if !fork1Ok then .fatal .fork_call 1
  else if !fork2Ok then .fatal .fork_call 1
  else .ok

/-- Exit status of the process for a `MainResult`. -/
def exitCode : MainResult → Nat
  | .ok => 0
  | .fatal _ code => code

/-- Byte offset rounded up to an alignment boundary (C struct layout
rule). -/
def alignUp (off a : Nat) : Nat := ((off + a - 1) / a) * a

/-- Fields of the C struct `SharedMessage` as (size, alignment) pairs:
`int message_id` (4,4), `char text_message[256]` (256,1), `int ready`
(4,4). -/
def structLayout : List (Nat × Nat) := [(4, 4), (256, 1), (4, 4)]

/-- End offset after laying out fields in order, each at its alignment. -/
def structEnd : Nat → List (Nat × Nat) → Nat
  | off, [] => off
  | off, (sz, al) :: rest => structEnd (alignUp off al + sz) rest

/-- Alignment of the whole struct: the maximum field alignment. -/
def structAlign (fs : List (Nat × Nat)) : Nat := fs.foldl (fun a p => max a p.2) 1

/-- `sizeof(SharedMessage)` computed by the standard C layout rules:
the end offset rounded up to the struct alignment (tail padding
included). -/
def sizeofSharedMessage : Nat :=
  alignUp (structEnd 0 structLayout) (structAlign structLayout)

lemma bufOk_len {j : Nat} {b : List Nat} (h : bufOk j b) : b.length = MAX_MSG_LEN := by
  unfold bufOk at h
  split at h
  · simp [h]
  · exact h.1

lemma msgBytes_fit {k : Nat} (h1 : 1 ≤ k) (h5 : k ≤ 5) :
    (msgBytes k).length + 1 ≤ MAX_MSG_LEN := by
  interval_cases k <;> decide

lemma msgBytes_nz {k : Nat} (h1 : 1 ≤ k) (h5 : k ≤ 5) : 0 ∉ msgBytes k := by
  interval_cases k <;> decide

lemma cstrWrite_hasMsg {k : Nat} {b : List Nat} (hb : b.length = MAX_MSG_LEN)
    (hfit : (msgBytes k).length + 1 ≤ MAX_MSG_LEN) :
    hasMsg k (cstrWrite MAX_MSG_LEN (msgBytes k) b) := by
  unfold cstrWrite hasMsg
  have htake : (msgBytes k).take (MAX_MSG_LEN - 1) = msgBytes k := by
    apply List.take_of_length_le
    omega
  rw [htake]
  constructor
  · simp [List.length_drop, hb]
    omega
  · rw [show (msgBytes k) ++ 0 :: b.drop ((msgBytes k).length + 1)
        = ((msgBytes k) ++ [0]) ++ b.drop ((msgBytes k).length + 1) by simp]
    rw [List.take_left']
    simp

lemma takeWhile_append_zero {l t : List Nat} (h : ∀ x ∈ l, x ≠ 0) :
    (l ++ 0 :: t).takeWhile (fun b => b != 0) = l := by
  induction l with
  | nil => simp [List.takeWhile]
  | cons a l ih =>
      have ha : a ≠ 0 := h a (by simp)
      have ha2 : (a != 0) = true := by simpa using ha
      simp only [List.cons_append, List.takeWhile, ha2]
      rw [show l.append (0 :: t) = l ++ 0 :: t from rfl]
      rw [ih (fun x hx => h x (by simp [hx]))]

lemma cstrRead_hasMsg {k : Nat} {b : List Nat} (h : hasMsg k b)
    (hnz : 0 ∉ msgBytes k) : cstrRead b = msgBytes k := by
  obtain ⟨hlen, htake⟩ := h
  have hsplit : b = (msgBytes k ++ [0]) ++ b.drop ((msgBytes k).length + 1) := by
    conv_lhs => rw [← List.take_append_drop ((msgBytes k).length + 1) b]
    rw [htake]
  rw [hsplit]
  unfold cstrRead
  rw [show (msgBytes k ++ [0]) ++ b.drop ((msgBytes k).length + 1)
      = msgBytes k ++ 0 :: b.drop ((msgBytes k).length + 1) by simp]
  exact takeWhile_append_zero (fun x hx hx0 => hnz (hx0 ▸ hx))

lemma inv_init : ProtoInv initConfig := by
  left
  refine ⟨1, le_refl 1, by omega, Or.inl ?_⟩
  refine ⟨rfl, rfl, rfl, rfl, rfl, ?_, ?_, rfl, rfl⟩
  · simp [idOk, initConfig]
  · simp [bufOk, initConfig]

lemma obsList_succ {k : Nat} (h : 1 ≤ k) :
    obsList k = obsList (k-1) ++ [(100 + (k : Int), msgBytes k)] := by
  obtain ⟨j, rfl⟩ : ∃ j, k = j + 1 := ⟨k - 1, by omega⟩
  simp only [obsList, Nat.add_sub_cancel]
  push_cast
  ring_nf

lemma altTrace_succ {k : Nat} (h : 1 ≤ k) :
    altTrace k = altTrace (k-1) ++
      [Event.wrote k (100 + (k : Int)) (msgBytes k),
       Event.read k (100 + (k : Int)) (msgBytes k)] := by
  obtain ⟨j, rfl⟩ : ∃ j, k = j + 1 := ⟨k - 1, by omega⟩
  simp only [altTrace, Nat.add_sub_cancel]
  push_cast
  ring_nf

lemma wstep_stutter {c : Config}
    (h : (c.wpc = .waitEmpty ∧ c.slot.ready = 1) ∨ c.wpc = .wdone) : wstep c = c := by
  obtain ⟨⟨mid, txt, rdy⟩, wpc, wi, rpc, ri, log, ev⟩ := c
  rcases h with ⟨h1, h2⟩ | h1
  · simp only at h1 h2
    subst h1 h2
    rfl
  · simp only at h1
    subst h1
    rfl

lemma rstep_stutter {c : Config}
    (h : (c.rpc = .waitFull ∧ c.slot.ready = 0) ∨ c.rpc = .rdone) : rstep c = c := by
  obtain ⟨⟨mid, txt, rdy⟩, wpc, wi, rpc, ri, log, ev⟩ := c
  rcases h with ⟨h1, h2⟩ | h1
  · simp only at h1 h2
    subst h1 h2
    rfl
  · simp only at h1
    subst h1
    rfl

lemma w_idle {k : Nat} {c : Config} (h : PhIdle k c) : PhWriteId k (wstep c) := by
  obtain ⟨⟨mid, txt, rdy⟩, wpc, wi, rpc, ri, log, ev⟩ := c
  obtain ⟨h1, h2, h3, h4, h5, h6, h7, h8, h9⟩ := h
  simp only at h1 h2 h3 h4 h5 h6 h7 h8 h9
  subst h1 h3 h5
  exact ⟨rfl, h2, rfl, h4, rfl, h6, h7, h8, h9⟩

lemma r_idle {k : Nat} {c : Config} (h : PhIdle k c) : PhIdle k (rstep c) := by
  obtain ⟨⟨mid, txt, rdy⟩, wpc, wi, rpc, ri, log, ev⟩ := c
  obtain ⟨h1, h2, h3, h4, h5, h6, h7, h8, h9⟩ := h
  simp only at h1 h2 h3 h4 h5 h6 h7 h8 h9
  subst h1 h3 h5
  exact ⟨rfl, h2, rfl, h4, rfl, h6, h7, h8, h9⟩

lemma w_writeId {k : Nat} {c : Config} (h : PhWriteId k c) : PhWriteText k (wstep c) := by
  obtain ⟨⟨mid, txt, rdy⟩, wpc, wi, rpc, ri, log, ev⟩ := c
  obtain ⟨h1, h2, h3, h4, h5, h6, h7, h8, h9⟩ := h
  simp only at h1 h2 h3 h4 h5 h6 h7 h8 h9
  subst h1 h2 h3 h5
  exact ⟨rfl, rfl, rfl, h4, rfl, rfl, h7, h8, h9⟩

lemma r_writeId {k : Nat} {c : Config} (h : PhWriteId k c) : PhWriteId k (rstep c) := by
  rw [rstep_stutter (Or.inl ⟨h.2.2.1, h.2.2.2.2.1⟩)]
  exact h

lemma w_writeText {k : Nat} {c : Config} (hk1 : 1 ≤ k) (hk5 : k ≤ 5)
    (h : PhWriteText k c) : PhSetFull k (wstep c) := by
  obtain ⟨⟨mid, txt, rdy⟩, wpc, wi, rpc, ri, log, ev⟩ := c
  obtain ⟨h1, h2, h3, h4, h5, h6, h7, h8, h9⟩ := h
  simp only at h1 h2 h3 h4 h5 h6 h7 h8 h9
  subst h1 h2 h3 h5 h6
  have hmsg : hasMsg wi (cstrWrite MAX_MSG_LEN (msgBytes wi) txt) :=
    cstrWrite_hasMsg (bufOk_len h7) (msgBytes_fit hk1 hk5)
  have hread : cstrRead (cstrWrite MAX_MSG_LEN (msgBytes wi) txt) = msgBytes wi :=
    cstrRead_hasMsg hmsg (msgBytes_nz hk1 hk5)
  refine ⟨rfl, rfl, rfl, h4, rfl, rfl, hmsg, h8, ?_⟩
  simp only [wstep]
  rw [h9, hread]

lemma r_writeText {k : Nat} {c : Config} (h : PhWriteText k c) : PhWriteText k (rstep c) := by
  rw [rstep_stutter (Or.inl ⟨h.2.2.1, h.2.2.2.2.1⟩)]
  exact h

lemma w_setFull {k : Nat} {c : Config} (hk5 : k ≤ 5) (h : PhSetFull k c) :
    PhFull k (wstep c) := by
  obtain ⟨⟨mid, txt, rdy⟩, wpc, wi, rpc, ri, log, ev⟩ := c
  obtain ⟨h1, h2, h3, h4, h5, h6, h7, h8, h9⟩ := h
  simp only at h1 h2 h3 h4 h5 h6 h7 h8 h9
  subst h1 h2 h3 h5 h6
  by_cases hk : wi < 5
  · simp only [wstep, if_pos hk]
    exact ⟨by simp [wAfter, hk], rfl, h4, rfl, rfl, h7, h8, h9⟩
  · simp only [wstep, if_neg hk]
    refine ⟨?_, rfl, h4, rfl, rfl, h7, h8, h9⟩
    simp only [wAfter, if_neg hk]
    refine ⟨by trivial, by omega⟩

lemma r_setFull {k : Nat} {c : Config} (h : PhSetFull k c) : PhSetFull k (rstep c) := by
  rw [rstep_stutter (Or.inl ⟨h.2.2.1, h.2.2.2.2.1⟩)]
  exact h

lemma wAfter_cases {k : Nat} {c : Config} (h : wAfter k c) :
    (c.wpc = .waitEmpty ∧ c.wi = k + 1) ∨ c.wpc = .wdone := by
  unfold wAfter at h
  split at h
  · exact Or.inl h
  · exact Or.inr h.1

lemma w_full {k : Nat} {c : Config} (h : PhFull k c) : PhFull k (wstep c) := by
  rcases wAfter_cases h.1 with ⟨h1, _⟩ | h1
  · rw [wstep_stutter (Or.inl ⟨h1, h.2.2.2.1⟩)]; exact h
  · rw [wstep_stutter (Or.inr h1)]; exact h

lemma r_full {k : Nat} {c : Config} (h : PhFull k c) : PhRead k (rstep c) := by
  obtain ⟨⟨mid, txt, rdy⟩, wpc, wi, rpc, ri, log, ev⟩ := c
  obtain ⟨h1, h2, h3, h4, h5, h6, h7, h8⟩ := h
  simp only at h2 h3 h4 h5 h6 h7 h8
  subst h2 h3 h4 h5
  exact ⟨h1, rfl, rfl, rfl, rfl, h6, h7, h8⟩

lemma w_read {k : Nat} {c : Config} (h : PhRead k c) : PhRead k (wstep c) := by
  rcases wAfter_cases h.1 with ⟨h1, _⟩ | h1
  · rw [wstep_stutter (Or.inl ⟨h1, h.2.2.2.1⟩)]; exact h
  · rw [wstep_stutter (Or.inr h1)]; exact h

lemma r_read {k : Nat} {c : Config} (hk1 : 1 ≤ k) (hk5 : k ≤ 5)
    (h : PhRead k c) : PhRelease k (rstep c) := by
  obtain ⟨⟨mid, txt, rdy⟩, wpc, wi, rpc, ri, log, ev⟩ := c
  obtain ⟨h1, h2, h3, h4, h5, h6, h7, h8⟩ := h
  simp only at h2 h3 h4 h5 h6 h7 h8
  subst h2 h3 h4 h5
  have hread : cstrRead txt = msgBytes ri := cstrRead_hasMsg h6 (msgBytes_nz hk1 hk5)
  refine ⟨h1, rfl, rfl, rfl, rfl, h6, ?_, ?_⟩
  · simp only [rstep]
    rw [h7, hread, obsList_succ hk1]
  · simp only [rstep]
    rw [h8, hread, altTrace_succ hk1]
    simp

lemma w_release {k : Nat} {c : Config} (h : PhRelease k c) : PhRelease k (wstep c) := by
  rcases wAfter_cases h.1 with ⟨h1, _⟩ | h1
  · rw [wstep_stutter (Or.inl ⟨h1, h.2.2.2.1⟩)]; exact h
  · rw [wstep_stutter (Or.inr h1)]; exact h

lemma r_release {k : Nat} {c : Config} (hk1 : 1 ≤ k) (hk5 : k ≤ 5)
    (h : PhRelease k c) :
    (k < 5 ∧ PhIdle (k+1) (rstep c)) ∨ (k = 5 ∧ PhDone (rstep c)) := by
  obtain ⟨⟨mid, txt, rdy⟩, wpc, wi, rpc, ri, log, ev⟩ := c
  obtain ⟨h1, h2, h3, h4, h5, h6, h7, h8⟩ := h
  simp only at h2 h3 h4 h5 h6 h7 h8
  subst h2 h3 h4 h5
  unfold wAfter at h1
  simp only at h1
  by_cases hk : ri < 5
  · left
    refine ⟨hk, ?_⟩
    rw [if_pos hk] at h1
    obtain ⟨hw1, hw2⟩ := h1
    subst hw1 hw2
    simp only [rstep, if_pos hk]
    have hne : ¬ (ri = 0) := by omega
    refine ⟨rfl, rfl, rfl, rfl, rfl, ?_, ?_, ?_, ?_⟩
    · simp only [Nat.add_sub_cancel, idOk, if_neg hne]
    · simp only [Nat.add_sub_cancel, bufOk, if_neg hne]
      exact h6
    · simpa [Nat.add_sub_cancel] using h7
    · simpa [Nat.add_sub_cancel] using h8
  · right
    have hk5e : ri = 5 := by omega
    subst hk5e
    rw [if_neg hk] at h1
    obtain ⟨hw1, hw2⟩ := h1
    subst hw1 hw2
    refine ⟨rfl, ?_⟩
    simp only [rstep, if_neg hk]
    exact ⟨rfl, rfl, rfl, rfl, rfl, by norm_num, h6, h7, h8⟩

lemma w_done {c : Config} (h : PhDone c) : PhDone (wstep c) := by
  rw [wstep_stutter (Or.inr h.1)]
  exact h

lemma r_done {c : Config} (h : PhDone c) : PhDone (rstep c) := by
  rw [rstep_stutter (Or.inr h.2.2.1)]
  exact h

lemma inv_wstep {c : Config} (h : ProtoInv c) : ProtoInv (wstep c) := by
  rcases h with ⟨k, hk1, hk5, hph⟩ | hd
  · rcases hph with h | h | h | h | h | h | h
    · exact Or.inl ⟨k, hk1, hk5, Or.inr (Or.inl (w_idle h))⟩
    · exact Or.inl ⟨k, hk1, hk5, Or.inr (Or.inr (Or.inl (w_writeId h)))⟩
    · exact Or.inl ⟨k, hk1, hk5, Or.inr (Or.inr (Or.inr (Or.inl (w_writeText hk1 hk5 h))))⟩
    · exact Or.inl ⟨k, hk1, hk5, Or.inr (Or.inr (Or.inr (Or.inr (Or.inl (w_setFull hk5 h)))))⟩
    · exact Or.inl ⟨k, hk1, hk5,
        Or.inr (Or.inr (Or.inr (Or.inr (Or.inl (w_full h)))))⟩
    · exact Or.inl ⟨k, hk1, hk5,
        Or.inr (Or.inr (Or.inr (Or.inr (Or.inr (Or.inl (w_read h))))))⟩
    · exact Or.inl ⟨k, hk1, hk5,
        Or.inr (Or.inr (Or.inr (Or.inr (Or.inr (Or.inr (w_release h))))))⟩
  · exact Or.inr (w_done hd)

lemma inv_rstep {c : Config} (h : ProtoInv c) : ProtoInv (rstep c) := by
  rcases h with ⟨k, hk1, hk5, hph⟩ | hd
  · rcases hph with h | h | h | h | h | h | h
    · exact Or.inl ⟨k, hk1, hk5, Or.inl (r_idle h)⟩
    · exact Or.inl ⟨k, hk1, hk5, Or.inr (Or.inl (r_writeId h))⟩
    · exact Or.inl ⟨k, hk1, hk5, Or.inr (Or.inr (Or.inl (r_writeText h)))⟩
    · exact Or.inl ⟨k, hk1, hk5, Or.inr (Or.inr (Or.inr (Or.inl (r_setFull h))))⟩
    · exact Or.inl ⟨k, hk1, hk5,
        Or.inr (Or.inr (Or.inr (Or.inr (Or.inr (Or.inl (r_full h))))))⟩
    · exact Or.inl ⟨k, hk1, hk5,
        Or.inr (Or.inr (Or.inr (Or.inr (Or.inr (Or.inr (r_read hk1 hk5 h))))))⟩
    · rcases r_release hk1 hk5 h with ⟨hk, hidle⟩ | ⟨_, hdone⟩
      · exact Or.inl ⟨k + 1, by omega, by omega, Or.inl hidle⟩
      · exact Or.inr hdone
  · exact Or.inr (r_done hd)

lemma inv_step {c : Config} (h : ProtoInv c) (p : Bool) : ProtoInv (step c p) := by
  cases p
  · exact inv_rstep h
  · exact inv_wstep h

lemma inv_exec_aux (sched : List Bool) :
    ∀ c : Config, ProtoInv c → ProtoInv (exec c sched) := by
  induction sched with
  | nil => exact fun c h => h
  | cons p rest ih => exact fun c h => ih (step c p) (inv_step h p)

lemma inv_exec (sched : List Bool) : ProtoInv (exec initConfig sched) :=
  inv_exec_aux sched initConfig inv_init

lemma isInitSeg_refl {α : Type} (l : List α) : isInitSeg l l := ⟨[], by simp⟩

lemma isInitSeg_trans {α : Type} {a b c : List α}
    (h1 : isInitSeg a b) (h2 : isInitSeg b c) : isInitSeg a c := by
  obtain ⟨t1, ht1⟩ := h1
  obtain ⟨t2, ht2⟩ := h2
  exact ⟨t1 ++ t2, by rw [← List.append_assoc, ht1, ht2]⟩

lemma isInitSeg_append {α : Type} (l t : List α) : isInitSeg l (l ++ t) := ⟨t, rfl⟩

lemma isInitSeg_length {α : Type} {a b : List α} (h : isInitSeg a b) :
    a.length ≤ b.length := by
  obtain ⟨t, ht⟩ := h
  rw [← ht]
  simp

lemma isInitSeg_map {α β : Type} (f : α → β) {a b : List α} (h : isInitSeg a b) :
    isInitSeg (a.map f) (b.map f) := by
  obtain ⟨t, ht⟩ := h
  exact ⟨t.map f, by rw [← List.map_append, ht]⟩

lemma isInitSeg_get {α : Type} {a b : List α} (h : isInitSeg a b) {n : Nat} {x : α}
    (hx : a.get? n = some x) : b.get? n = some x := by
  obtain ⟨t, ht⟩ := h
  have hn : n < a.length := by
    rcases List.get?_eq_some.mp hx with ⟨h1, _⟩
    exact h1
  rw [← ht, List.get?_append hn]
  exact hx

lemma altTrace_mono {m n : Nat} (h : m ≤ n) : isInitSeg (altTrace m) (altTrace n) := by
  induction n with
  | zero =>
      have : m = 0 := Nat.le_zero.mp h
      subst this
      exact isInitSeg_refl _
  | succ n ih =>
      rcases Nat.lt_or_ge m (n+1) with hm | hm
      · exact isInitSeg_trans (ih (by omega)) (isInitSeg_append _ _)
      · have : m = n + 1 := by omega
        subst this
        exact isInitSeg_refl _

lemma obsList_mono {m n : Nat} (h : m ≤ n) : isInitSeg (obsList m) (obsList n) := by
  induction n with
  | zero =>
      have : m = 0 := Nat.le_zero.mp h
      subst this
      exact isInitSeg_refl _
  | succ n ih =>
      rcases Nat.lt_or_ge m (n+1) with hm | hm
      · exact isInitSeg_trans (ih (by omega)) (isInitSeg_append _ _)
      · have : m = n + 1 := by omega
        subst this
        exact isInitSeg_refl _

lemma obsList_length (n : Nat) : (obsList n).length = n := by
  induction n with
  | zero => rfl
  | succ n ih => simp [obsList, ih]

lemma inv_events {c : Config} (h : ProtoInv c) : isInitSeg c.events (altTrace 5) := by
  rcases h with ⟨k, hk1, hk5, hph⟩ | hd
  · have hstep : isInitSeg (altTrace (k-1) ++
        [Event.wrote k (100 + (k : Int)) (msgBytes k)]) (altTrace k) := by
      rw [altTrace_succ hk1]
      exact ⟨[Event.read k (100 + (k : Int)) (msgBytes k)], by simp⟩
    rcases hph with hp | hp | hp | hp | hp | hp | hp
    · rw [hp.2.2.2.2.2.2.2.2]
      exact altTrace_mono (by omega)
    · rw [hp.2.2.2.2.2.2.2.2]
      exact altTrace_mono (by omega)
    · rw [hp.2.2.2.2.2.2.2.2]
      exact altTrace_mono (by omega)
    · rw [hp.2.2.2.2.2.2.2.2]
      exact isInitSeg_trans hstep (altTrace_mono hk5)
    · rw [hp.2.2.2.2.2.2.2]
      exact isInitSeg_trans hstep (altTrace_mono hk5)
    · rw [hp.2.2.2.2.2.2.2]
      exact isInitSeg_trans hstep (altTrace_mono hk5)
    · rw [hp.2.2.2.2.2.2.2]
      exact altTrace_mono hk5
  · rw [hd.2.2.2.2.2.2.2.2]
    exact isInitSeg_refl _

lemma inv_log {c : Config} (h : ProtoInv c) : isInitSeg c.log (obsList 5) := by
  rcases h with ⟨k, hk1, hk5, hph⟩ | hd
  · rcases hph with hp | hp | hp | hp | hp | hp | hp
    · rw [hp.2.2.2.2.2.2.2.1]
      exact obsList_mono (by omega)
    · rw [hp.2.2.2.2.2.2.2.1]
      exact obsList_mono (by omega)
    · rw [hp.2.2.2.2.2.2.2.1]
      exact obsList_mono (by omega)
    · rw [hp.2.2.2.2.2.2.2.1]
      exact obsList_mono (by omega)
    · rw [hp.2.2.2.2.2.2.1]
      exact obsList_mono (by omega)
    · rw [hp.2.2.2.2.2.2.1]
      exact obsList_mono (by omega)
    · rw [hp.2.2.2.2.2.2.1]
      exact obsList_mono hk5
  · rw [hd.2.2.2.2.2.2.2.1]
    exact isInitSeg_refl _

lemma inv_terminal {c : Config} (h : ProtoInv c) (ht : terminal c) : PhDone c := by
  obtain ⟨ht1, ht2⟩ := ht
  rcases h with ⟨k, hk1, hk5, hph⟩ | hd
  · exfalso
    rcases hph with hp | hp | hp | hp | hp | hp | hp
    · rw [hp.1] at ht1; cases ht1
    · rw [hp.1] at ht1; cases ht1
    · rw [hp.1] at ht1; cases ht1
    · rw [hp.1] at ht1; cases ht1
    · rw [hp.2.1] at ht2; cases ht2
    · rw [hp.2.1] at ht2; cases ht2
    · rw [hp.2.1] at ht2; cases ht2
  · exact hd

lemma rstep_keeps_payload (c : Config) :
    (rstep c).slot.message_id = c.slot.message_id ∧
    (rstep c).slot.text_message = c.slot.text_message := by
  obtain ⟨⟨mid, txt, rdy⟩, wpc, wi, rpc, ri, log, ev⟩ := c
  cases rpc <;> simp only [rstep] <;> try split
  all_goals simp

lemma wstep_keeps_log (c : Config) : (wstep c).log = c.log := by
  obtain ⟨⟨mid, txt, rdy⟩, wpc, wi, rpc, ri, log, ev⟩ := c
  cases wpc <;> simp only [wstep] <;> try split
  all_goals simp

lemma wstep_keeps_payload (c : Config) (h1 : c.wpc ≠ .writeId) (h2 : c.wpc ≠ .writeText) :
    (wstep c).slot.message_id = c.slot.message_id ∧
    (wstep c).slot.text_message = c.slot.text_message := by
  obtain ⟨⟨mid, txt, rdy⟩, wpc, wi, rpc, ri, log, ev⟩ := c
  cases wpc
  case writeId => exact absurd rfl h1
  case writeText => exact absurd rfl h2
  all_goals simp only [wstep] <;> try split
  all_goals simp

lemma rstep_keeps_log (c : Config) (h : c.rpc ≠ .readMsg) : (rstep c).log = c.log := by
  obtain ⟨⟨mid, txt, rdy⟩, wpc, wi, rpc, ri, log, ev⟩ := c
  cases rpc
  case readMsg => exact absurd rfl h
  all_goals simp only [rstep] <;> try split
  all_goals simp

lemma rstep_no_fill (c : Config) (h : c.slot.ready = 0) : (rstep c).slot.ready = 0 := by
  obtain ⟨⟨mid, txt, rdy⟩, wpc, wi, rpc, ri, log, ev⟩ := c
  simp only at h
  subst h
  cases rpc <;> simp only [rstep] <;> try split
  all_goals simp

lemma wstep_no_drain (c : Config) (h : c.slot.ready = 1) : (wstep c).slot.ready = 1 := by
  obtain ⟨⟨mid, txt, rdy⟩, wpc, wi, rpc, ri, log, ev⟩ := c
  simp only at h
  subst h
  cases wpc <;> simp only [wstep] <;> try split
  all_goals simp

lemma inv_writer_empty {c : Config} (h : ProtoInv c)
    (hw : c.wpc = .writeId ∨ c.wpc = .writeText) : c.slot.ready = 0 := by
  rcases h with ⟨k, hk1, hk5, hph⟩ | hd
  · rcases hph with hp | hp | hp | hp | hp | hp | hp
    · rcases hw with hw | hw <;> (rw [hp.1] at hw; cases hw)
    · exact hp.2.2.2.2.1
    · exact hp.2.2.2.2.1
    · rcases hw with hw | hw <;> (rw [hp.1] at hw; cases hw)
    · rcases wAfter_cases hp.1 with ⟨h1, _⟩ | h1 <;>
        rcases hw with hw | hw <;> (rw [h1] at hw; cases hw)
    · rcases wAfter_cases hp.1 with ⟨h1, _⟩ | h1 <;>
        rcases hw with hw | hw <;> (rw [h1] at hw; cases hw)
    · rcases wAfter_cases hp.1 with ⟨h1, _⟩ | h1 <;>
        rcases hw with hw | hw <;> (rw [h1] at hw; cases hw)
  · rcases hw with hw | hw <;> (rw [hd.1] at hw; cases hw)

lemma inv_reader_full {c : Config} (h : ProtoInv c) (hr : c.rpc = .readMsg) :
    c.slot.ready = 1 := by
  rcases h with ⟨k, hk1, hk5, hph⟩ | hd
  · rcases hph with hp | hp | hp | hp | hp | hp | hp
    · rw [hp.2.2.1] at hr; cases hr
    · rw [hp.2.2.1] at hr; cases hr
    · rw [hp.2.2.1] at hr; cases hr
    · rw [hp.2.2.1] at hr; cases hr
    · rw [hp.2.1] at hr; cases hr
    · exact hp.2.2.2.1
    · rw [hp.2.1] at hr; cases hr
  · rw [hd.2.2.1] at hr; cases hr

lemma altTrace5_expand : altTrace 5 =
    [Event.wrote 1 101 (msgBytes 1), Event.read 1 101 (msgBytes 1),
     Event.wrote 2 102 (msgBytes 2), Event.read 2 102 (msgBytes 2),
     Event.wrote 3 103 (msgBytes 3), Event.read 3 103 (msgBytes 3),
     Event.wrote 4 104 (msgBytes 4), Event.read 4 104 (msgBytes 4),
     Event.wrote 5 105 (msgBytes 5), Event.read 5 105 (msgBytes 5)] := by
  decide

lemma wrote_pos {p k : Nat} {id : Int} {t : List Nat}
    (h : (altTrace 5).get? p = some (Event.wrote k id t)) :
    p = 2 * k - 2 ∧ 1 ≤ k ∧ k ≤ 5 := by
  have hp : p < 10 := by
    rcases List.get?_eq_some.mp h with ⟨hlen, _⟩
    simpa [altTrace5_expand] using hlen
  rw [altTrace5_expand] at h
  interval_cases p <;> simp only [List.get?, Option.some.injEq, Event.wrote.injEq,
    reduceCtorEq] at h <;> obtain ⟨hk, -, -⟩ := h <;> omega

lemma read_pos {p k : Nat} {id : Int} {t : List Nat}
    (h : (altTrace 5).get? p = some (Event.read k id t)) :
    p = 2 * k - 1 ∧ 1 ≤ k ∧ k ≤ 5 := by
  have hp : p < 10 := by
    rcases List.get?_eq_some.mp h with ⟨hlen, _⟩
    simpa [altTrace5_expand] using hlen
  rw [altTrace5_expand] at h
  interval_cases p <;> simp only [List.get?, Option.some.injEq, Event.read.injEq,
    reduceCtorEq] at h <;> obtain ⟨hk, -, -⟩ := h <;> omega

lemma inv_at_setFull {c : Config} (h : ProtoInv c) (hw : c.wpc = .setFull) :
    c.slot.message_id = 100 + (c.wi : Int) ∧ hasMsg c.wi c.slot.text_message := by
  rcases h with ⟨k, hk1, hk5, hph⟩ | hd
  · rcases hph with hp | hp | hp | hp | hp | hp | hp
    · rw [hp.1] at hw; cases hw
    · rw [hp.1] at hw; cases hw
    · rw [hp.1] at hw; cases hw
    · rw [hp.2.1]
      exact ⟨hp.2.2.2.2.2.1, hp.2.2.2.2.2.2.1⟩
    · rcases wAfter_cases hp.1 with ⟨h1, _⟩ | h1 <;> (rw [h1] at hw; cases hw)
    · rcases wAfter_cases hp.1 with ⟨h1, _⟩ | h1 <;> (rw [h1] at hw; cases hw)
    · rcases wAfter_cases hp.1 with ⟨h1, _⟩ | h1 <;> (rw [h1] at hw; cases hw)
  · rw [hd.1] at hw; cases hw

lemma inv_at_setEmpty {c : Config} (h : ProtoInv c) (hr : c.rpc = .setEmpty) :
    c.log.getLast? = some (100 + (c.ri : Int), msgBytes c.ri) := by
  rcases h with ⟨k, hk1, hk5, hph⟩ | hd
  · rcases hph with hp | hp | hp | hp | hp | hp | hp
    · rw [hp.2.2.1] at hr; cases hr
    · rw [hp.2.2.1] at hr; cases hr
    · rw [hp.2.2.1] at hr; cases hr
    · rw [hp.2.2.1] at hr; cases hr
    · rw [hp.2.1] at hr; cases hr
    · rw [hp.2.1] at hr; cases hr
    · rw [hp.2.2.1, hp.2.2.2.2.2.2.1, obsList_succ hk1]
      exact List.getLast?_concat _
  · rw [hd.2.2.1] at hr; cases hr

lemma obsList_get {k n : Nat} (hk1 : 1 ≤ k) (hkn : k ≤ n) :
    (obsList n).get? (k-1) = some (100 + (k : Int), msgBytes k) := by
  induction n with
  | zero => omega
  | succ n ih =>
      rcases Nat.lt_or_ge k (n+1) with hlt | hge
      · rw [obsList, List.get?_append (by rw [obsList_length]; omega)]
        exact ih (by omega)
      · have hk : k = n + 1 := by omega
        subst hk
        rw [obsList, List.get?_append_right (by rw [obsList_length]; omega)]
        rw [obsList_length]
        simp only [Nat.add_sub_cancel, Nat.sub_self, List.get?]
        push_cast
        ring_nf

lemma hasMsg_mem_zero {k : Nat} {b : List Nat} (h : hasMsg k b) : 0 ∈ b := by
  obtain ⟨hlen, htake⟩ := h
  have hz : (0 : Nat) ∈ b.take ((msgBytes k).length + 1) := by
    rw [htake]
    simp
  exact List.take_subset _ b hz

lemma inv_full_null {c : Config} (h : ProtoInv c) (hr : c.slot.ready = 1) :
    (0 : Nat) ∈ c.slot.text_message := by
  rcases h with ⟨k, hk1, hk5, hph⟩ | hd
  · rcases hph with hp | hp | hp | hp | hp | hp | hp
    · rw [hp.2.2.2.2.1] at hr; cases hr
    · rw [hp.2.2.2.2.1] at hr; cases hr
    · rw [hp.2.2.2.2.1] at hr; cases hr
    · rw [hp.2.2.2.2.1] at hr; cases hr
    · exact hasMsg_mem_zero hp.2.2.2.2.2.1
    · exact hasMsg_mem_zero hp.2.2.2.2.2.1
    · exact hasMsg_mem_zero hp.2.2.2.2.2.1
  · rw [hd.2.2.2.2.1] at hr; cases hr

lemma inv_progress {c : Config} (h : ProtoInv c) (hnt : ¬ terminal c) :
    wstep c ≠ c ∨ rstep c ≠ c := by
  rcases h with ⟨k, hk1, hk5, hph⟩ | hd
  · rcases hph with hp | hp | hp | hp | hp | hp | hp
    · left
      intro heq
      have h1 := (w_idle hp).1
      rw [heq, hp.1] at h1
      cases h1
    · left
      intro heq
      have h1 := (w_writeId hp).1
      rw [heq, hp.1] at h1
      cases h1
    · left
      intro heq
      have h1 := (w_writeText hk1 hk5 hp).1
      rw [heq, hp.1] at h1
      cases h1
    · left
      intro heq
      rcases wAfter_cases (w_setFull hk5 hp).1 with ⟨h1, _⟩ | h1 <;>
        (rw [heq, hp.1] at h1; cases h1)
    · right
      intro heq
      have h1 := (r_full hp).2.1
      rw [heq, hp.2.1] at h1
      cases h1
    · right
      intro heq
      have h1 := (r_read hk1 hk5 hp).2.1
      rw [heq, hp.2.1] at h1
      cases h1
    · right
      intro heq
      rcases r_release hk1 hk5 hp with ⟨-, h1⟩ | ⟨-, h1⟩
      · have h2 := h1.2.2.1
        rw [heq, hp.2.1] at h2
        cases h2
      · have h2 := h1.2.2.1
        rw [heq, hp.2.1] at h2
        cases h2
  · exact absurd ⟨hd.1, hd.2.2.1⟩ hnt

/-- C1: in every run of the completed protocol, the event trace is an
initial segment of the strictly alternating trace wrote 1, read 1,
wrote 2, read 2, ..., wrote 5, read 5; a run in which both children
terminated has exactly that trace (no message skipped, none read
twice); and in any run, the write of message k precedes the read of
message k, which precedes the write of message k+1. -/
theorem writer_reader_strict_alternation (sched : List Bool) :
    isInitSeg ((exec initConfig sched).events) (altTrace 5) ∧
    (terminal (exec initConfig sched) → (exec initConfig sched).events = altTrace 5) ∧
    (∀ p q k : Nat, ∀ id1 id2 : Int, ∀ t1 t2 : List Nat,
      ((exec initConfig sched).events).get? p = some (Event.wrote k id1 t1) →
      ((exec initConfig sched).events).get? q = some (Event.read k id2 t2) → p < q) ∧
    (∀ p q k : Nat, ∀ id1 id2 : Int, ∀ t1 t2 : List Nat,
      ((exec initConfig sched).events).get? p = some (Event.read k id1 t1) →
      ((exec initConfig sched).events).get? q = some (Event.wrote (k+1) id2 t2) → p < q) := by
  have hinv := inv_exec sched
  have hseg := inv_events hinv
  refine ⟨hseg, ?_, ?_, ?_⟩
  · intro ht
    exact (inv_terminal hinv ht).2.2.2.2.2.2.2.2
  · intro p q k id1 id2 t1 t2 hw hr
    obtain ⟨hp, hk1, hk5⟩ := wrote_pos (isInitSeg_get hseg hw)
    obtain ⟨hq, -, -⟩ := read_pos (isInitSeg_get hseg hr)
    omega
  · intro p q k id1 id2 t1 t2 hr hw
    obtain ⟨hp, hk1, hk5⟩ := read_pos (isInitSeg_get hseg hr)
    obtain ⟨hq, -, -⟩ := wrote_pos (isInitSeg_get hseg hw)
    omega

/-- Witness for C1 on the concrete schedule `fullSched`. -/
theorem writer_reader_strict_alternation_witness :
    (exec initConfig fullSched).events = altTrace 5 ∧ (0 : Nat) < 1 :=
  ⟨(writer_reader_strict_alternation fullSched).2.1 (by decide),
   (writer_reader_strict_alternation fullSched).2.2.1 0 1 1 101 101
     (msgBytes 1) (msgBytes 1) (by decide) (by decide)⟩

/-- C2: in any reachable state, a step that mutates `message_id` or
`text_message` can only be a writer step taken while the flag is 0
(Empty), and a step that consumes the slot (grows the reader's log) can
only be a reader step taken while the flag is 1 (Full); the writer and
the reader are the only actors in the model. -/
theorem slot_mutation_discipline (sched : List Bool) (p : Bool) :
    (((step (exec initConfig sched) p).slot.message_id ≠
        (exec initConfig sched).slot.message_id ∨
      (step (exec initConfig sched) p).slot.text_message ≠
        (exec initConfig sched).slot.text_message) →
      p = true ∧ (exec initConfig sched).slot.ready = 0) ∧
    ((step (exec initConfig sched) p).log ≠ (exec initConfig sched).log →
      p = false ∧ (exec initConfig sched).slot.ready = 1) := by
  have hinv := inv_exec sched
  constructor
  · intro hch
    cases p
    · exfalso
      obtain ⟨e1, e2⟩ := rstep_keeps_payload (exec initConfig sched)
      rcases hch with hch | hch
      · exact hch e1
      · exact hch e2
    · refine ⟨rfl, ?_⟩
      apply inv_writer_empty hinv
      by_contra hno
      push_neg at hno
      obtain ⟨e1, e2⟩ := wstep_keeps_payload (exec initConfig sched) hno.1 hno.2
      rcases hch with hch | hch
      · exact hch e1
      · exact hch e2
  · intro hlog
    cases p
    · refine ⟨rfl, ?_⟩
      apply inv_reader_full hinv
      by_contra hno
      exact hlog (rstep_keeps_log (exec initConfig sched) hno)
    · exact absurd (wstep_keeps_log (exec initConfig sched)) hlog

/-- Witness for C2: a writer step about to store the id finds the flag
Empty; a reader step about to consume finds it Full. -/
theorem slot_mutation_discipline_witness :
    (true = true ∧ (exec initConfig [true]).slot.ready = 0) ∧
    (false = false ∧
      (exec initConfig [true, true, true, true, false]).slot.ready = 1) :=
  ⟨(slot_mutation_discipline [true] true).1 (by decide),
   (slot_mutation_discipline [true, true, true, true, false] false).2 (by decide)⟩

/-- C3: when the writer is about to set the flag to Full, the slot
already holds the complete id and NUL-terminated text of its current
message; when the reader is about to set the flag to Empty, its log
already ends with the current message (reading is finished); the reader
can never take the flag from 0 to 1 and the writer can never take it
from 1 to 0. -/
theorem publish_before_flag (sched : List Bool) :
    ((exec initConfig sched).wpc = .setFull →
      (exec initConfig sched).slot.message_id =
        100 + ((exec initConfig sched).wi : Int) ∧
      (exec initConfig sched).slot.text_message.take
          ((msgBytes (exec initConfig sched).wi).length + 1) =
        msgBytes (exec initConfig sched).wi ++ [0]) ∧
    ((exec initConfig sched).rpc = .setEmpty →
      (exec initConfig sched).log.getLast? =
        some (100 + ((exec initConfig sched).ri : Int),
              msgBytes (exec initConfig sched).ri)) ∧
    (∀ d : Config, d.slot.ready = 0 → (rstep d).slot.ready = 0) ∧
    (∀ d : Config, d.slot.ready = 1 → (wstep d).slot.ready = 1) := by
  have hinv := inv_exec sched
  refine ⟨?_, inv_at_setEmpty hinv, rstep_no_fill, wstep_no_drain⟩
  intro hw
  obtain ⟨h1, h2⟩ := inv_at_setFull hinv hw
  exact ⟨h1, h2.2⟩

/-- Witness for C3: concrete states just before the two flag
transitions. -/
theorem publish_before_flag_witness :
    ((exec initConfig [true, true, true]).slot.message_id =
        100 + ((exec initConfig [true, true, true]).wi : Int)) ∧
    ((exec initConfig [true, true, true, true, false, false]).log.getLast? =
      some (100 + ((exec initConfig [true, true, true, true, false, false]).ri : Int),
            msgBytes (exec initConfig [true, true, true, true, false, false]).ri)) :=
  ⟨((publish_before_flag [true, true, true]).1 (by decide)).1,
   (publish_before_flag [true, true, true, true, false, false]).2.1 (by decide)⟩

/-- C4: in any run, the ids the reader has observed so far are an
initial segment of 101, 102, 103, 104, 105 in that order, and a run in
which both children terminated observed exactly 101..105 — strictly
increasing by 1, no repeats, no gaps. -/
theorem monotonic_ids (sched : List Bool) :
    isInitSeg ((exec initConfig sched).log.map Prod.fst) [101, 102, 103, 104, 105] ∧
    (terminal (exec initConfig sched) →
      (exec initConfig sched).log.map Prod.fst = [101, 102, 103, 104, 105]) := by
  have hinv := inv_exec sched
  have hlog := inv_log hinv
  have hmap : (obsList 5).map Prod.fst = [101, 102, 103, 104, 105] := by decide
  constructor
  · have hm := isInitSeg_map Prod.fst hlog
    rwa [hmap] at hm
  · intro ht
    rw [(inv_terminal hinv ht).2.2.2.2.2.2.2.1, hmap]

/-- Witness for C4 on the concrete schedule `fullSched`. -/
theorem monotonic_ids_witness :
    (exec initConfig fullSched).log.map Prod.fst = [101, 102, 103, 104, 105] :=
  (monotonic_ids fullSched).2 (by decide)

/-- C5: whenever the reader has consumed message k, what it read is
byte-for-byte the id and text the writer produced for iteration k —
`(100 + k, msgBytes k)` — with no truncation and no mixing of bytes
from different messages. -/
theorem payload_integrity (sched : List Bool) (k : Nat) (hk1 : 1 ≤ k)
    (hk : k ≤ (exec initConfig sched).log.length) :
    (exec initConfig sched).log.get? (k-1) = some (100 + (k : Int), msgBytes k) := by
  have hinv := inv_exec sched
  have hlog := inv_log hinv
  have hlen : (exec initConfig sched).log.length ≤ 5 := by
    have h5 := isInitSeg_length hlog
    rwa [obsList_length] at h5
  obtain ⟨t, ht⟩ := hlog
  have hget : (obsList 5).get? (k-1) = some (100 + (k : Int), msgBytes k) :=
    obsList_get hk1 (by omega)
  rw [← ht, List.get?_append (by omega)] at hget
  exact hget

/-- Witness for C5: the second message read in the full run is exactly
(102, msgBytes 2). -/
theorem payload_integrity_witness :
    (1 : Nat) ≤ 2 ∧ (2 : Nat) ≤ (exec initConfig fullSched).log.length ∧
    (exec initConfig fullSched).log.get? 1 = some (102, msgBytes 2) :=
  ⟨by decide, by decide, payload_integrity fullSched 2 (by decide) (by decide)⟩

/-- C6: the concrete fair schedule `fullSched` drives both children to
termination (so the parent's two `waitpid` calls return); every
terminated run performed exactly 5 writer iterations and 5 reader
iterations; and no reachable non-terminal state is stuck — one of the
two children can always change the state. -/
theorem run_completion (sched : List Bool) :
    terminal (exec initConfig fullSched) ∧
    (terminal (exec initConfig sched) →
      (exec initConfig sched).wi = 5 ∧ (exec initConfig sched).ri = 5 ∧
      wroteCount (exec initConfig sched).events = 5 ∧
      readCount (exec initConfig sched).events = 5) ∧
    (¬ terminal (exec initConfig sched) →
      wstep (exec initConfig sched) ≠ exec initConfig sched ∨
      rstep (exec initConfig sched) ≠ exec initConfig sched) := by
  refine ⟨by decide, ?_, ?_⟩
  · intro ht
    have hd := inv_terminal (inv_exec sched) ht
    refine ⟨hd.2.1, hd.2.2.2.1, ?_, ?_⟩
    · rw [hd.2.2.2.2.2.2.2.2]
      decide
    · rw [hd.2.2.2.2.2.2.2.2]
      decide
  · exact inv_progress (inv_exec sched)

/-- Witness for C6: the full run has exactly five writes and five
reads, and the initial state can make progress. -/
theorem run_completion_witness :
    ((exec initConfig fullSched).wi = 5 ∧ (exec initConfig fullSched).ri = 5 ∧
      wroteCount (exec initConfig fullSched).events = 5 ∧
      readCount (exec initConfig fullSched).events = 5) ∧
    (wstep (exec initConfig []) ≠ exec initConfig [] ∨
      rstep (exec initConfig []) ≠ exec initConfig []) :=
  ⟨(run_completion fullSched).2.1 (by decide),
   (run_completion []).2.2 (by decide)⟩

/-- C7: the parent hands the children a slot initialized to Empty —
`message_id = 0`, `ready = 0`, text buffer all zero bytes — and in the
parent's program order the slot initialization precedes both forks,
and both `waitpid` calls precede `shm_unlink`, so the shared object is
destroyed only after both children have terminated. -/
theorem initializer_lifecycle :
    initConfig.slot.message_id = 0 ∧ initConfig.slot.ready = 0 ∧
    initConfig.slot.text_message = List.replicate MAX_MSG_LEN 0 ∧
    parentProgram.indexOf ParentOp.initSlotOp <
      parentProgram.indexOf ParentOp.forkWriterOp ∧
    parentProgram.indexOf ParentOp.initSlotOp <
      parentProgram.indexOf ParentOp.forkReaderOp ∧
    parentProgram.indexOf ParentOp.waitWriterOp <
      parentProgram.indexOf ParentOp.shmUnlinkOp ∧
    parentProgram.indexOf ParentOp.waitReaderOp <
      parentProgram.indexOf ParentOp.shmUnlinkOp := by
  decide

/-- C8: when all setup calls succeed, `main` reaches `return 0`; when
any fails, the run ends with exit code 1 (nonzero) and the diagnostic
names exactly the call that failed, in the source's ladder order
(shm_open, ftruncate, mmap, fork, fork). -/
theorem setup_error_handling :
    ∀ a b c d e : Bool,
      ((a && b && c && d && e) = true →
        mainSetup a b c d e = .ok ∧ exitCode (mainSetup a b c d e) = 0) ∧
      ((a && b && c && d && e) = false →
        exitCode (mainSetup a b c d e) = 1 ∧ mainSetup a b c d e ≠ .ok) ∧
      (a = false → mainSetup a b c d e = .fatal .shm_open_call 1) ∧
      (a = true → b = false → mainSetup a b c d e = .fatal .ftruncate_call 1) ∧
      (a = true → b = true → c = false → mainSetup a b c d e = .fatal .mmap_call 1) ∧
      (a = true → b = true → c = true → d = false →
        mainSetup a b c d e = .fatal .fork_call 1) ∧
      (a = true → b = true → c = true → d = true → e = false →
        mainSetup a b c d e = .fatal .fork_call 1) := by
  intro a b c d e
  cases a <;> cases b <;> cases c <;> cases d <;> cases e <;>
    simp [mainSetup, exitCode]

/-- Witness for C8: the all-success run exits 0; an shm_open failure is
reported as such with exit code 1. -/
theorem setup_error_handling_witness :
    (mainSetup true true true true true = .ok ∧
      exitCode (mainSetup true true true true true) = 0) ∧
    mainSetup false true true true true = .fatal .shm_open_call 1 :=
  ⟨(setup_error_handling true true true true true).1 rfl,
   (setup_error_handling false true true true true).2.2.1 rfl⟩

/-- C9: the C layout of `SharedMessage` (4-byte int, 256-byte array,
4-byte int, alignment padding included) is 264 bytes, which is at most
the 1024-byte region `SHM_SIZE`, so the record fits at the start of the
region. -/
theorem record_fits_region :
    sizeofSharedMessage = 264 ∧ sizeofSharedMessage ≤ SHM_SIZE := by
  decide

/-- C10: every writer message for iterations 1..5 fits in the buffer
with its NUL terminator; writing it into a full-capacity buffer keeps
the length at exactly `MAX_MSG_LEN` and puts a NUL right after the
message; snprintf-style truncation keeps the length at `MAX_MSG_LEN`
for an arbitrary payload as well; and in every reachable state in which
the writer has published (`ready = 1`), the shared buffer contains a
NUL byte. -/
theorem snprintf_bounded (i : Nat) (hi1 : 1 ≤ i) (hi5 : i ≤ 5) :
    (msgBytes i).length + 1 ≤ MAX_MSG_LEN ∧
    (∀ buf : List Nat, buf.length = MAX_MSG_LEN →
      (cstrWrite MAX_MSG_LEN (msgBytes i) buf).length = MAX_MSG_LEN ∧
      (cstrWrite MAX_MSG_LEN (msgBytes i) buf).get? (msgBytes i).length = some 0) ∧
    (∀ s buf : List Nat, buf.length = MAX_MSG_LEN →
      (cstrWrite MAX_MSG_LEN s buf).length = MAX_MSG_LEN) ∧
    (∀ sched : List Bool, (exec initConfig sched).slot.ready = 1 →
      (0 : Nat) ∈ (exec initConfig sched).slot.text_message) := by
  have hfit := msgBytes_fit hi1 hi5
  refine ⟨hfit, ?_, ?_, ?_⟩
  · intro buf hbuf
    have hmsg := cstrWrite_hasMsg hbuf hfit
    refine ⟨hmsg.1, ?_⟩
    have htake := hmsg.2
    rw [← List.get?_take (by omega : (msgBytes i).length < (msgBytes i).length + 1),
        htake, List.get?_concat_length]
  · intro s buf hbuf
    unfold cstrWrite
    simp only [List.length_append, List.length_cons, List.length_drop,
      List.length_take, hbuf]
    omega
  · intro sched hr
    exact inv_full_null (inv_exec sched) hr

/-- Witness for C10 at iteration 3 and a concrete nonzero buffer. -/
theorem snprintf_bounded_witness :
    ((msgBytes 3).length + 1 ≤ MAX_MSG_LEN ∧
      (cstrWrite MAX_MSG_LEN (msgBytes 3) (List.replicate MAX_MSG_LEN 7)).length
        = MAX_MSG_LEN ∧
      (cstrWrite MAX_MSG_LEN (msgBytes 3)
          (List.replicate MAX_MSG_LEN 7)).get? (msgBytes 3).length = some 0) ∧
    (0 : Nat) ∈ (exec initConfig [true, true, true, true]).slot.text_message := by
  have h := snprintf_bounded 3 (by decide) (by decide)
  obtain ⟨h1, h2, h3, h4⟩ := h
  obtain ⟨ha, hb⟩ := h2 (List.replicate MAX_MSG_LEN 7) (by decide)
  exact ⟨⟨h1, ha, hb⟩, h4 [true, true, true, true] (by decide)⟩
